import Mathlib

/-!
Shallow embedding of the vehiql_ai server actions (src/actions/cars.js) and
proofs about them.  JS strings are modelled as `String`/`List Char`, machine
effects (database rows, storage uploads, console logs) are threaded
explicitly through environment records and result records, and fallible JS
code (`throw`/`catch`) is modelled with `Except`.
-/

namespace Vehiql

/-- The backquote character used by markdown code fences (U+0060). -/
def tick : Char := Char.ofNat 96

/-- JS `a.startsWith(b)` on exploded strings. -/
def strStarts : List Char → List Char → Bool
  | [], _ => true
  | _ :: _, [] => false
  | p :: ps, c :: cs => p == c && strStarts ps cs

/-- Whether `pat` occurs as a contiguous substring. -/
def occursIn (pat : List Char) : List Char → Bool
  | [] => strStarts pat []
  | c :: rest => strStarts pat (c :: rest) || occursIn pat rest

/-- First occurrence of `pat`; returns the characters after it
(the capture group of a JS regex of shape `pat(.*)`). -/
def findAfter (pat : List Char) : List Char → Option (List Char)
  | [] => if strStarts pat [] then some [] else none
  | c :: rest =>
    if strStarts pat (c :: rest) then some ((c :: rest).drop pat.length)
    else findAfter pat rest

/-- JS `s.split(",")`: the comma-separated pieces of a string, in order. -/
def splitComma : List Char → List (List Char)
  | [] => [[]]
  | c :: rest =>
    match splitComma rest with
    | [] => [[]]
    | p :: ps => if c = ',' then [] :: p :: ps else (c :: p) :: ps

/-- The JS character class `[a-zA-Z0-9]`. -/
def isAlnum (c : Char) : Bool := c.isAlpha || c.isDigit

/-- Whitespace as removed by JS `String.prototype.trim`
(modelled by the ASCII whitespace predicate). -/
def isJsWS (c : Char) : Bool := c.isWhitespace

/-- The characters of the literal `json` language tag. -/
def jsonTag : List Char := ['j', 's', 'o', 'n']

/-- Consume an optional `json` tag (the `(?:json)?` part of the fence regex). -/
def dropJson (l : List Char) : List Char := if l.take 4 = jsonTag then l.drop 4 else l

/-- Consume an optional newline (the `\n?` part of the fence regex). -/
def dropNl (l : List Char) : List Char := if l.take 1 = ['\n'] then l.drop 1 else l

/-- Whether the next three characters are backquotes, i.e. the fence regex
matches at the current position. -/
def fenceHead (l : List Char) : Bool := l.take 3 == [tick, tick, tick]

/-- JS `text.replace(/```(?:json)?\n?/g, "")` (cars.js lines 79 and 477):
scan left to right, removing every fence marker (three backquotes, an
optional `json` tag, an optional newline), keeping all other characters. -/
def removeFences : List Char → List Char
  | [] => []
  | c :: rest =>
    if fenceHead (c :: rest) then removeFences (dropNl (dropJson (rest.drop 2)))
    else c :: removeFences rest
termination_by l => l.length
decreasing_by
  · have h1 : (dropJson (rest.drop 2)).length ≤ (rest.drop 2).length := by
      simp only [dropJson]
      split <;> simp <;> omega
    have h2 : (dropNl (dropJson (rest.drop 2))).length ≤ (dropJson (rest.drop 2)).length := by
      simp only [dropNl]
      split <;> simp <;> omega
    have h3 : (rest.drop 2).length ≤ rest.length := by simp
    simp only [List.length_cons]
    omega
  · simp only [List.length_cons]
    omega

/-- JS `s.trimStart()` on exploded strings. -/
def ltrim (l : List Char) : List Char := l.dropWhile isJsWS

/-- JS `s.trimEnd()` on exploded strings: remove the trailing whitespace run. -/
def rtrim : List Char → List Char
  | [] => []
  | c :: rest =>
    match rtrim rest with
    | [] => if isJsWS c then [] else [c]
    | x :: xs => c :: x :: xs

/-- JS `s.trim()` on exploded strings. -/
def jsTrim (l : List Char) : List Char := rtrim (ltrim l)

/-- The response-cleaning step shared by `processCarImageWithAI` and
`processImageSearch`: strip markdown code fences, then trim. -/
def jsClean (s : String) : String := String.mk (jsTrim (removeFences s.data))

/-- Whether three consecutive backquotes occur anywhere in the string. -/
def hasTriple : List Char → Bool
  | [] => false
  | c :: rest => fenceHead (c :: rest) || hasTriple rest

/-! ## Data model (cars.js lines 192-210 and the Prisma Car shape) -/

/-- A persisted Car row. -/
structure Car where
  id : String
  make : String
  model : String
  year : Int
  price : Int
  mileage : Int
  color : String
  fuelType : String
  transmission : String
  bodyType : String
  seats : Int
  description : String
  status : String
  featured : Bool
  images : List String
  createdAt : Nat
  deriving DecidableEq, Repr

/-- The `carData` argument of `addCar` (everything but id and images). -/
structure CarData where
  make : String
  model : String
  year : Int
  price : Int
  mileage : Int
  color : String
  fuelType : String
  transmission : String
  bodyType : String
  seats : Int
  description : String
  status : String
  featured : Bool
  deriving DecidableEq, Repr

/-- The tagged `{success, error?}` object returned by the repository actions. -/
structure JsResult where
  success : Bool
  error : Option String
  deriving DecidableEq, Repr

/-! ## AI metadata extractor (cars.js lines 18-124, 408-496) -/

/-- A parsed JSON value as far as the extractor inspects it: the JS `in`
operator only looks at the key set of an object.  `jobj keys` is any JSON
value on which `key in v` is defined (objects, including arrays, described
by the set of property names); `jprim` is a primitive (number, string,
boolean or null), on which the JS `in` operator throws a TypeError. -/
inductive Json where
  | jobj (keys : List String)
  | jprim
  deriving DecidableEq, Repr

/-- The tagged result object built by the extractor
(`{success, data?, error?}`). -/
structure AIReply where
  success : Bool
  data : Option Json
  error : Option String
  deriving DecidableEq, Repr

/-- The required fields checked by `processCarImageWithAI`
(cars.js lines 87-99, in source order). -/
def requiredFields : List String :=
  ["make", "model", "year", "color", "bodyType", "price", "mileage",
   "fuelType", "transmission", "description", "confidence"]

/-- `processCarImageWithAI` (cars.js lines 18-124), after the AI provider
successfully returned the response text `text`.

`hasApiKey` models `process.env.GEMINI_API_KEY`; `jsonParse` is an oracle
for the JS `JSON.parse` (`none` = it throws a SyntaxError).  `.error m`
models the function throwing an error with message `m`; note the outer
catch rethrows as `"Gemini API error:" + error.message`.  The inner
`throw new Error("AI response missing required fields: ...")` (line 104) is
caught by the function itself at line 112, so every parse or validation
problem returns the tagged failure with the generic message. -/
def processCarImageWithAI (hasApiKey : Bool) (jsonParse : String → Option Json)
    (text : String) : Except String AIReply :=
  if !hasApiKey then
    .error ("Gemini API error:" ++ "Gemini API key is not configured")
  else
    let cleanedText := jsClean text
    match jsonParse cleanedText with
    | none => .ok ⟨false, none, some "Failed to parse AI response"⟩
    | some .jprim =>
        -- `field in carDetails` throws a TypeError on a primitive, caught at line 112
        .ok ⟨false, none, some "Failed to parse AI response"⟩
    | some (.jobj keys) =>
        let missingFields := requiredFields.filter (fun field => !(keys.contains field))
        if missingFields.length > 0 then
          -- the thrown error is caught by the inner catch at line 112
          .ok ⟨false, none, some "Failed to parse AI response"⟩
        else
          .ok ⟨true, some (.jobj keys), none⟩

/-- The decision returned by the arcjet admission check
(`aj.protect`, cars.js lines 411-430). -/
inductive Decision where
  | allow
  | denyRateLimit (remaining : Nat) (resetSeconds : Nat)
  | denyOther
  deriving DecidableEq, Repr

/-- Environment for `processImageSearch`: the admission decision, the API key
configuration, the `JSON.parse` oracle and the AI response text. -/
structure SearchEnv where
  decision : Decision
  hasApiKey : Bool
  jsonParse : String → Option Json
  aiText : String

/-- Observable outcome of `processImageSearch`: the returned value or thrown
error, whether the AI provider was invoked, and the
`{remaining, resetInSeconds}` rate-limit details written to the error log. -/
structure SearchResult where
  outcome : Except String AIReply
  aiInvoked : Bool
  loggedRate : List (Nat × Nat)
  deriving Repr

/-- `processImageSearch` (cars.js lines 408-496).

Every throw inside the body is rewrapped by the outer catch as
`new Error("AI search error:", error.message)`; the second argument of the
`Error` constructor is an options bag, so a string there is ignored and the
thrown message is exactly `"AI search error:"`.  On a rate-limit denial the
remaining quota and reset time are written to `console.error` (modelled by
`loggedRate`) and a generic error is thrown.  When `JSON.parse` fails, the
catch block at line 485 evaluates `parseError`, an identifier that is not in
scope there (the catch binds `error`), so a ReferenceError is raised and the
`return {success:false, ...}` on line 487 is dead code: the ReferenceError
propagates to the outer catch, which throws. -/
def processImageSearch (env : SearchEnv) : SearchResult :=
  match env.decision with
  | .denyRateLimit remaining reset =>
      ⟨.error "AI search error:", false, [(remaining, reset)]⟩
  | .denyOther =>
      ⟨.error "AI search error:", false, []⟩
  | .allow =>
      if !env.hasApiKey then
        ⟨.error "AI search error:", false, []⟩
      else
        let cleanedText := jsClean env.aiText
        match env.jsonParse cleanedText with
        | some j => ⟨.ok ⟨true, some j, none⟩, true, []⟩
        | none =>
            -- ReferenceError on `parseError`, propagated to the outer catch
            ⟨.error "AI search error:", true, []⟩

/-! ## addCar image ingestion (cars.js lines 126-221) -/

/-- The data-URI marker checked by `addCar`
(`base64Data.startsWith("data:image/")`, line 153). -/
def dataImageMark : List Char := "data:image/".data

/-- The validity check of cars.js line 153: `!base64Data` (only the empty
string is falsy here, and it also fails the marker check) followed by
`base64Data.startsWith("data:image/")`. -/
def validImage (s : String) : Bool :=
  !(s == "") && strStarts dataImageMark s.data

/-- The file-extension extraction of cars.js lines 163-164: the first match
of `/data:image\/([a-zA-Z0-9]+);/` anywhere in the string.  A match at a
position requires the marker, then a nonempty alphanumeric run immediately
followed by a semicolon. -/
def extMatchAt (l : List Char) : Option (List Char) :=
  if strStarts dataImageMark l then
    let t := l.drop dataImageMark.length
    let run := t.takeWhile isAlnum
    if run.length ≠ 0 && (t.drop run.length).take 1 = [';'] then some run
    else none
  else none

/-- Scan for the first position where the extension regex matches. -/
def findExt : List Char → Option (List Char)
  | [] => none
  | c :: rest =>
    match extMatchAt (c :: rest) with
    | some r => some r
    | none => findExt rest

/-- `mimeMatch ? mimeMatch[1] : "jpeg"` (cars.js line 164). -/
def extOf (s : String) : String :=
  match findExt s.data with
  | some r => String.mk r
  | none => "jpeg"

/-- Environment for `addCar`: authentication, the request timestamp
(`Date.now()`), the generated uuid, the storage base URL, the message of the
TypeError Node raises for `Buffer.from(undefined, "base64")`, the per-path
storage upload outcome and the database insert outcome. -/
structure AddCarEnv where
  userId : Option String
  userExists : Bool
  now : Nat
  carId : String
  supabaseUrl : String
  bufferErrMsg : String
  uploadError : String → Option String
  dbCreateError : Option String

/-- The storage path built for image number `i` (cars.js lines 140, 167-168). -/
def pathOf (env : AddCarEnv) (i : Nat) (img : String) : String :=
  "cars/" ++ env.carId ++ "/image-" ++ toString env.now ++ "-" ++ toString i
    ++ "." ++ extOf img

/-- The public URL derived for an uploaded path (cars.js line 181). -/
def urlOf (env : AddCarEnv) (path : String) : String :=
  env.supabaseUrl ++ "/storage/v1/object/public/car-images/" ++ path

/-- The per-image loop of `addCar` (cars.js lines 149-184), processing the
images from index `i` on.  Returns the collected public URLs (or the thrown
error) together with the storage paths for which an upload call was issued,
in order.  An entry failing the validity check is skipped; an accepted entry
without a comma makes `images[i].split(",")[1]` undefined, so
`Buffer.from(undefined, "base64")` throws a TypeError before any upload; an
upload error is rethrown as `"Failed to upload image: " + message`. -/
def ingest (env : AddCarEnv) : Nat → List String → Except String (List String) × List String
  | _, [] => (.ok [], [])
  | i, img :: rest =>
    if !(validImage img) then ingest env (i + 1) rest
    else
      match (splitComma img.data)[1]? with
      | none => (.error env.bufferErrMsg, [])
      | some _payload =>
        let path := pathOf env i img
        match env.uploadError path with
        | some msg => (.error ("Failed to upload image: " ++ msg), [path])
        | none =>
          let r := ingest env (i + 1) rest
          (match r.1 with
           | .ok urls => .ok (urlOf env path :: urls)
           | .error e => .error e,
           path :: r.2)

/-- The Car row inserted by `db.car.create` (cars.js lines 192-210);
`createdAt` is assigned by the database, modelled with the request time. -/
def mkCar (env : AddCarEnv) (carData : CarData) (imageUrls : List String) : Car :=
  { id := env.carId
    make := carData.make
    model := carData.model
    year := carData.year
    price := carData.price
    mileage := carData.mileage
    color := carData.color
    fuelType := carData.fuelType
    transmission := carData.transmission
    bodyType := carData.bodyType
    seats := carData.seats
    description := carData.description
    status := carData.status
    featured := carData.featured
    images := imageUrls
    createdAt := env.now }

/-- Observable outcome of `addCar`: the returned `{success:true}` or thrown
error, the storage upload calls issued, and the created Car row if any. -/
structure AddCarResult where
  outcome : Except String Unit
  uploaded : List String
  created : Option Car
  deriving Repr

/-- `addCar` (cars.js lines 126-221).  Every throw is rewrapped by the
outer catch as `"Error adding car:" + error.message`. -/
def addCar (env : AddCarEnv) (carData : CarData) (images : List String) : AddCarResult :=
  match env.userId with
  | none => ⟨.error ("Error adding car:" ++ "Unauthorized!"), [], none⟩
  | some _ =>
    if !env.userExists then ⟨.error ("Error adding car:" ++ "User not found"), [], none⟩
    else
      let r := ingest env 0 images
      match r.1 with
      | .error e => ⟨.error ("Error adding car:" ++ e), r.2, none⟩
      | .ok imageUrls =>
        if imageUrls.length = 0 then
          ⟨.error ("Error adding car:" ++ "No valid images were uploaded"), r.2, none⟩
        else
          match env.dbCreateError with
          | some e => ⟨.error ("Error adding car:" ++ e), r.2, none⟩
          | none => ⟨.ok (), r.2, some (mkCar env carData imageUrls)⟩

/-- Index-tagged copy of a list, mirroring the loop counter of `addCar`. -/
def withIdx : Nat → List String → List (Nat × String)
  | _, [] => []
  | i, x :: xs => (i, x) :: withIdx (i + 1) xs

/-- The entries accepted by the validity check, with their loop indices. -/
def acceptedEntries (images : List String) : List (Nat × String) :=
  (withIdx 0 images).filter (fun p => validImage p.2)

/-- One public URL per accepted entry, in input order. -/
def acceptedUrls (env : AddCarEnv) (images : List String) : List String :=
  (acceptedEntries images).map (fun p => urlOf env (pathOf env p.1 p.2))

/-- One storage path per accepted entry, in input order. -/
def acceptedPaths (env : AddCarEnv) (images : List String) : List String :=
  (acceptedEntries images).map (fun p => pathOf env p.1 p.2)

/-- Spec-side notion of a well-formed data URI, following the spec wording
(section 4.3): a string of shape `data:image/<ext>;base64,<payload>`.
Declared only to state claims that quantify over well-formed vs malformed
entries; the code itself never checks this much. -/
def specWellFormedDataURI (s : String) : Bool :=
  strStarts dataImageMark s.data &&
  (let t := s.data.drop dataImageMark.length
   let run := t.takeWhile isAlnum
   run.length ≠ 0 && strStarts ";base64,".data (t.drop run.length))

/-! ## deleteCar (cars.js lines 264-333) -/

/-- Environment for `deleteCar`: authentication, the fetched car images
(`none` = no row for the id), whether `cookies()/createClient` succeed,
an oracle for `new URL(u).pathname` (`none` = the constructor throws), and
the storage remove outcome. -/
structure DeleteEnv where
  userId : Option String
  userExists : Bool
  found : Option (List String)
  clientOk : Bool
  urlPath : String → Option String
  removeError : Option String

/-- Observable outcome of `deleteCar`: the tagged result, whether the
database row was deleted, and the batch storage remove calls issued. -/
structure DeleteResult where
  res : JsResult
  dbDeleted : Bool
  removeCalls : List (List String)
  deriving Repr

/-- The path-extraction map of cars.js lines 298-304: `new URL` may throw
(aborting the whole storage block), a pathname without the `/car-images/`
segment maps to `null` and is filtered out. -/
def extractPaths (env : DeleteEnv) : List String → Except Unit (List String)
  | [] => .ok []
  | u :: rest =>
    match env.urlPath u with
    | none => .error ()
    | some pathname =>
      match extractPaths env rest with
      | .error e => .error e
      | .ok ps =>
        .ok (match findAfter "/car-images/".data pathname.data with
             | some tail => String.mk tail :: ps
             | none => ps)

/-- `deleteCar` (cars.js lines 264-333).  The whole storage block sits in an
inner try whose catch only logs, so storage problems never affect the
result; the row deletion happens before the storage block. -/
def deleteCar (env : DeleteEnv) : DeleteResult :=
  match env.userId with
  | none => ⟨⟨false, some "Unauthorized!"⟩, false, []⟩
  | some _ =>
    if !env.userExists then ⟨⟨false, some "User not found"⟩, false, []⟩
    else
      match env.found with
      | none => ⟨⟨false, some "Car not found"⟩, false, []⟩
      | some imgs =>
        let removeCalls : List (List String) :=
          if !env.clientOk then []
          else
            match extractPaths env imgs with
            | .error _ => []
            | .ok filePaths => if filePaths.length > 0 then [filePaths] else []
        ⟨⟨true, none⟩, true, removeCalls⟩

/-! ## updateCarStatus (cars.js lines 335-376) -/

/-- The `{status, featured}` argument: `none` models a field that is
`undefined` in JS. -/
structure CarUpdate where
  status : Option String
  featured : Option Bool
  deriving DecidableEq, Repr

/-- Environment for `updateCarStatus`: authentication and the stored row
for the given id (`none` = no such row, Prisma throws P2025). -/
structure UpdateEnv where
  userId : Option String
  userExists : Bool
  stored : Option Car

/-- Observable outcome of `updateCarStatus`: the tagged result and the row
after the update. -/
structure UpdateResult where
  res : JsResult
  stored : Option Car
  deriving Repr

/-- The sparse update object built on cars.js lines 347-355 and applied by
`db.car.update`: only the fields that are not `undefined` are written. -/
def applyUpdate (car : Car) (upd : CarUpdate) : Car :=
  { car with
    status := upd.status.getD car.status
    featured := upd.featured.getD car.featured }

/-- `updateCarStatus` (cars.js lines 335-376).  All throws are caught by the
outer catch, which returns `{success:false, error}`. -/
def updateCarStatus (env : UpdateEnv) (upd : CarUpdate) : UpdateResult :=
  match env.userId with
  | none => ⟨⟨false, some "Unauthorized!"⟩, env.stored⟩
  | some _ =>
    if !env.userExists then ⟨⟨false, some "User not found"⟩, env.stored⟩
    else
      match env.stored with
      | none => ⟨⟨false, some "Record to update not found."⟩, none⟩
      | some car => ⟨⟨true, none⟩, some (applyUpdate car upd)⟩

/-! ## getFeaturedCars (cars.js lines 385-400) -/

/-- Modelled from the spec: `serializeCarData` lives in `@/lib/helper`,
which is not part of this repository snapshot.  The spec (sections 3 and
4.4) treats it as a pass-through serialization of the Car attributes, so it
is modelled as the identity on the Car model. -/
def serializeCarData (car : Car) : Car := car

/-- Descending creation-time order used by `orderBy: { createdAt: "desc" }`. -/
def createdDesc (a b : Car) : Prop := b.createdAt ≤ a.createdAt

instance : DecidableRel createdDesc :=
  fun a b => inferInstanceAs (Decidable (b.createdAt ≤ a.createdAt))

instance : IsTotal Car createdDesc :=
  ⟨fun a b => (Nat.le_total b.createdAt a.createdAt).elim Or.inl Or.inr⟩

instance : IsTrans Car createdDesc :=
  ⟨fun _ _ _ hab hbc => Nat.le_trans hbc hab⟩

/-- The Prisma `findMany` filter of cars.js lines 388-391. -/
def featuredAvailable (c : Car) : Bool := c.featured && c.status == "AVAILABLE"

/-- `getFeaturedCars` (cars.js lines 385-400).  `authCtx` is the ambient
identity context available to every server action; the source never calls
`auth()` here, so the body ignores it.  The relational store is modelled as
the list `dbCars`; `findMany` filters, orders by `createdAt` descending and
takes `limit` rows (default 3), and each row is serialized. -/
def getFeaturedCars (authCtx : Option String) (dbCars : List Car) (limit : Nat := 3) :
    List Car :=
  ((((dbCars.filter featuredAvailable).insertionSort createdDesc).take limit).map
    serializeCarData)

/-! ## Sample data used by witnesses and counterexamples -/

/-- A benign `addCar` environment: authenticated, storage and database
healthy. -/
def sampleEnv : AddCarEnv :=
  ⟨some "user-1", true, 0, "CID", "http://s", "TE", fun _ => none, none⟩

/-- Sample car attributes. -/
def sampleCarData : CarData :=
  ⟨"Make", "Model", 2020, 100, 10, "red", "Petrol", "Automatic", "SUV", 5,
   "desc", "AVAILABLE", false⟩

/-- A sample stored Car row. -/
def sampleCar : Car :=
  ⟨"car-1", "Make", "Model", 2020, 100, 10, "red", "Petrol", "Automatic",
   "SUV", 5, "desc", "AVAILABLE", false, ["http://s/u"], 7⟩

/-! ## Properties of the fence-stripping transformation -/

theorem fenceHead_iff {l : List Char} :
    fenceHead l = true ↔ l.take 3 = [tick, tick, tick] := by
  simp [fenceHead]

theorem fenceHead_false_iff {l : List Char} :
    fenceHead l = false ↔ l.take 3 ≠ [tick, tick, tick] := by
  simp [fenceHead]

theorem removeFences_nil : removeFences [] = [] := by
  simp [removeFences]

theorem removeFences_fence {c : Char} {rest : List Char}
    (h : fenceHead (c :: rest) = true) :
    removeFences (c :: rest) = removeFences (dropNl (dropJson (rest.drop 2))) := by
  simp [removeFences, h]

theorem removeFences_nofence {c : Char} {rest : List Char}
    (h : fenceHead (c :: rest) = false) :
    removeFences (c :: rest) = c :: removeFences rest := by
  simp [removeFences, h]

theorem fenceHead_cons_iff {c : Char} {rest : List Char} :
    fenceHead (c :: rest) = true ↔ c = tick ∧ rest.take 2 = [tick, tick] := by
  rw [fenceHead_iff]
  simp [List.take_succ_cons]

theorem removeFences_take_one {l : List Char} (h : l.take 1 ≠ [tick]) :
    (removeFences l).take 1 ≠ [tick] := by
  cases l with
  | nil => simpa [removeFences_nil] using h
  | cons c rest =>
    have hc : c ≠ tick := by
      intro he
      exact h (by simp [List.take_succ_cons, he])
    have hf : fenceHead (c :: rest) = false := by
      rw [fenceHead_false_iff]
      simp [List.take_succ_cons, hc]
    rw [removeFences_nofence hf]
    simp [List.take_succ_cons, hc]

theorem removeFences_take_two {l : List Char} (h : l.take 2 ≠ [tick, tick]) :
    (removeFences l).take 2 ≠ [tick, tick] := by
  cases l with
  | nil => simpa [removeFences_nil] using h
  | cons c rest =>
    by_cases hc : c = tick
    · subst hc
      have hr1 : rest.take 1 ≠ [tick] := by
        intro h1
        exact h (by simp [List.take_succ_cons, h1])
      have hr2 : rest.take 2 ≠ [tick, tick] := by
        intro h2
        apply hr1
        have : (rest.take 2).take 1 = rest.take 1 := by
          simp [List.take_take]
        rw [← this, h2]
        rfl
      have hf : fenceHead (tick :: rest) = false := by
        rw [fenceHead_false_iff]
        simp [List.take_succ_cons, hr2]
      rw [removeFences_nofence hf]
      have := removeFences_take_one hr1
      simp [List.take_succ_cons]
      intro h1
      exact this (by simp [h1])
    · have hf : fenceHead (c :: rest) = false := by
        rw [fenceHead_false_iff]
        simp [List.take_succ_cons, hc]
      rw [removeFences_nofence hf]
      simp [List.take_succ_cons, hc]

theorem hasTriple_cons {c : Char} {l : List Char} :
    hasTriple (c :: l) = (fenceHead (c :: l) || hasTriple l) := rfl

theorem fenceTail_length (rest : List Char) :
    (dropNl (dropJson (rest.drop 2))).length ≤ rest.length := by
  have h1 : (dropJson (rest.drop 2)).length ≤ (rest.drop 2).length := by
    simp only [dropJson]
    split <;> simp <;> omega
  have h2 : (dropNl (dropJson (rest.drop 2))).length ≤ (dropJson (rest.drop 2)).length := by
    simp only [dropNl]
    split <;> simp <;> omega
  have h3 : (rest.drop 2).length ≤ rest.length := by simp
  omega

/-- The output of fence removal never contains three consecutive backquotes:
leftmost-greedy removal cannot leave one backquote directly in front of a
fence, so no new fence is created by a removal. -/
theorem hasTriple_removeFences : ∀ l : List Char, hasTriple (removeFences l) = false := by
  have main : ∀ n : Nat, ∀ l : List Char, l.length ≤ n → hasTriple (removeFences l) = false := by
    intro n
    induction n with
    | zero =>
      intro l hl
      have : l = [] := List.length_eq_zero.mp (Nat.le_zero.mp hl)
      subst this
      simp [removeFences_nil, hasTriple]
    | succ n ih =>
      intro l hl
      cases l with
      | nil => simp [removeFences_nil, hasTriple]
      | cons c rest =>
        by_cases hf : fenceHead (c :: rest) = true
        · rw [removeFences_fence hf]
          exact ih _ (by have := fenceTail_length rest; simp at hl; omega)
        · rw [Bool.not_eq_true] at hf
          rw [removeFences_nofence hf, hasTriple_cons]
          have hrest : hasTriple (removeFences rest) = false :=
            ih rest (by simp at hl; omega)
          rw [hrest, Bool.or_false]
          rw [fenceHead_false_iff] at hf ⊢
          simp only [List.take_succ_cons, ne_eq, List.cons.injEq] at hf ⊢
          intro ⟨hc, htake⟩
          subst hc
          have h2 : rest.take 2 ≠ [tick, tick] := fun h => hf ⟨rfl, h⟩
          exact removeFences_take_two h2 htake
  exact fun l => main l.length l le_rfl

theorem removeFences_eq_self {l : List Char} (h : hasTriple l = false) :
    removeFences l = l := by
  induction l with
  | nil => exact removeFences_nil
  | cons c rest ih =>
    rw [hasTriple_cons, Bool.or_eq_false_iff] at h
    rw [removeFences_nofence h.1, ih h.2]

theorem hasTriple_ltrim {l : List Char} (h : hasTriple l = false) :
    hasTriple (ltrim l) = false := by
  induction l with
  | nil => exact h
  | cons c rest ih =>
    rw [hasTriple_cons, Bool.or_eq_false_iff] at h
    rw [ltrim, List.dropWhile_cons]
    split
    · exact ih h.2
    · rw [hasTriple_cons, h.1, h.2]
      rfl

theorem rtrim_cons (c : Char) (rest : List Char) :
    rtrim (c :: rest) =
      match rtrim rest with
      | [] => if isJsWS c then [] else [c]
      | x :: xs => c :: x :: xs := rfl

/-- `rtrim l` is a prefix of `l`. -/
theorem rtrim_append : ∀ l : List Char, ∃ s, l = rtrim l ++ s := by
  intro l
  induction l with
  | nil => exact ⟨[], rfl⟩
  | cons c rest ih =>
    obtain ⟨s, hs⟩ := ih
    cases hr : rtrim rest with
    | nil =>
      rw [rtrim_cons, hr]
      by_cases hw : isJsWS c
      · exact ⟨c :: rest, by simp [hw]⟩
      · exact ⟨rest, by simp [hw]⟩
    | cons x xs =>
      rw [rtrim_cons, hr]
      rw [hr] at hs
      exact ⟨s, by simp [hs]⟩

theorem fenceHead_append {l s : List Char} (h : fenceHead l = true) :
    fenceHead (l ++ s) = true := by
  rw [fenceHead_iff] at h ⊢
  have hlen : 3 ≤ l.length := by
    have := congrArg List.length h
    simp [List.length_take] at this
    omega
  rw [List.take_append_eq_append_take, h]
  simp [Nat.sub_eq_zero_of_le hlen]

theorem hasTriple_append_left : ∀ {a s : List Char}, hasTriple a = true →
    hasTriple (a ++ s) = true := by
  intro a s h
  induction a with
  | nil => simp [hasTriple] at h
  | cons c rest ih =>
    rw [hasTriple_cons, Bool.or_eq_true] at h
    rw [List.cons_append, hasTriple_cons, Bool.or_eq_true]
    rcases h with h | h
    · exact Or.inl (by rw [← List.cons_append]; exact fenceHead_append h)
    · exact Or.inr (ih h)

theorem hasTriple_rtrim {l : List Char} (h : hasTriple l = false) :
    hasTriple (rtrim l) = false := by
  by_contra hc
  rw [Bool.not_eq_false] at hc
  obtain ⟨s, hs⟩ := rtrim_append l
  have : hasTriple l = true := by
    rw [hs]
    exact hasTriple_append_left hc
  rw [this] at h
  simp at h

theorem hasTriple_jsTrim {l : List Char} (h : hasTriple l = false) :
    hasTriple (jsTrim l) = false :=
  hasTriple_rtrim (hasTriple_ltrim h)

theorem ltrim_cons (c : Char) (rest : List Char) :
    ltrim (c :: rest) = if isJsWS c then ltrim rest else c :: rest := by
  simp only [ltrim, List.dropWhile_cons]

theorem ltrim_idem (l : List Char) : ltrim (ltrim l) = ltrim l := by
  induction l with
  | nil => rfl
  | cons c rest ih =>
    rw [ltrim_cons]
    split_ifs with hw
    · exact ih
    · rw [ltrim_cons, if_neg hw]

theorem rtrim_idem (l : List Char) : rtrim (rtrim l) = rtrim l := by
  induction l with
  | nil => rfl
  | cons c rest ih =>
    cases hr : rtrim rest with
    | nil =>
      rw [rtrim_cons, hr]
      by_cases hw : isJsWS c
      · simp [hw, rtrim]
      · simp [hw, rtrim]
    | cons x xs =>
      rw [rtrim_cons, hr]
      have hxs : rtrim (x :: xs) = x :: xs := by
        rw [← hr, ih]
      rw [rtrim_cons, hxs]

theorem ltrim_rtrim {l : List Char} (h : ltrim l = l) :
    ltrim (rtrim l) = rtrim l := by
  cases l with
  | nil => rfl
  | cons c rest =>
    have hw : ¬ isJsWS c = true := by
      intro hw
      rw [ltrim_cons, if_pos hw] at h
      have hlen := congrArg List.length h
      have : (ltrim rest).length ≤ rest.length :=
        (List.dropWhile_sublist _).length_le
      simp at hlen
      omega
    cases hr : rtrim rest with
    | nil =>
      rw [rtrim_cons, hr, if_neg hw, ltrim_cons, if_neg hw]
    | cons x xs =>
      rw [rtrim_cons, hr, ltrim_cons, if_neg hw]

theorem jsTrim_idem (l : List Char) : jsTrim (jsTrim l) = jsTrim l := by
  rw [jsTrim, jsTrim, ltrim_rtrim (ltrim_idem l), rtrim_idem]

/-! ## Properties of addCar ingestion -/

theorem ingest_all_invalid (env : AddCarEnv) :
    ∀ (images : List String), (∀ img ∈ images, validImage img = false) →
    ∀ (i : Nat), ingest env i images = (.ok [], []) := by
  intro images
  induction images with
  | nil => intro _ i; simp [ingest]
  | cons img rest ih =>
    intro h i
    have hv := h img (by simp)
    simp only [ingest, hv, Bool.not_false, if_pos]
    exact ih (fun x hx => h x (by simp [hx])) (i + 1)

theorem ingest_all_uploads_ok (env : AddCarEnv) (hup : ∀ p, env.uploadError p = none) :
    ∀ (images : List String),
    (∀ img ∈ images, validImage img = true → 2 ≤ (splitComma img.data).length) →
    ∀ (i : Nat),
    ingest env i images =
      (.ok (((withIdx i images).filter (fun p => validImage p.2)).map
              (fun p => urlOf env (pathOf env p.1 p.2))),
       ((withIdx i images).filter (fun p => validImage p.2)).map
          (fun p => pathOf env p.1 p.2)) := by
  intro images
  induction images with
  | nil => intro _ i; simp [ingest, withIdx]
  | cons img rest ih =>
    intro hcomma i
    have ihr := ih (fun x hx hvx => hcomma x (by simp [hx]) hvx) (i + 1)
    by_cases hv : validImage img = true
    · have hsplit : 2 ≤ (splitComma img.data).length := hcomma img (by simp) hv
      obtain ⟨y, hy⟩ : ∃ y, (splitComma img.data)[1]? = some y :=
        ⟨_, List.getElem?_eq_getElem (by omega)⟩
      simp only [ingest, hv, Bool.not_true, Bool.false_eq_true, if_false, hy,
        hup, withIdx, List.filter_cons, List.map_cons, ihr]
      simp [hv]
    · rw [Bool.not_eq_true] at hv
      simp only [ingest, hv, Bool.not_false, if_pos, withIdx, List.filter_cons]
      rw [ihr]
      simp [hv]

theorem acceptedEntries_length (images : List String) :
    (acceptedEntries images).length = (images.filter validImage).length := by
  have main : ∀ (l : List String) (i : Nat),
      ((withIdx i l).filter (fun p => validImage p.2)).length =
        (l.filter validImage).length := by
    intro l
    induction l with
    | nil => intro i; rfl
    | cons x xs ih =>
      intro i
      by_cases hv : validImage x = true <;>
        simp [withIdx, List.filter_cons, hv, ih (i + 1)]
  exact main images 0

/-- Claim C1: for every authenticated `addCar` call whose image sequence has
zero entries passing the data-URI image check, the call throws the
no-valid-images error, performs no storage upload and creates no Car row;
and a Car row created by `addCar` always has a nonempty image URL list. -/
theorem addCar_zero_valid_images_invariant :
    (∀ (env : AddCarEnv) (carData : CarData) (images : List String) (uid : String),
      env.userId = some uid → env.userExists = true →
      (∀ img ∈ images, validImage img = false) →
      addCar env carData images =
        ⟨.error ("Error adding car:" ++ "No valid images were uploaded"), [], none⟩) ∧
    (∀ (env : AddCarEnv) (carData : CarData) (images : List String) (car : Car),
      (addCar env carData images).created = some car → car.images ≠ []) := by
  constructor
  · intro env carData images uid hauth huser hinv
    have hing := ingest_all_invalid env images hinv 0
    simp [addCar, hauth, huser, hing]
  · intro env carData images car h
    simp only [addCar] at h
    rcases hu : env.userId with _ | uid <;> rw [hu] at h
    · simp at h
    · rcases hx : env.userExists <;> rw [hx] at h
      · simp at h
      · simp only [Bool.not_true, Bool.false_eq_true, if_false] at h
        rcases hr : (ingest env 0 images).1 with e | urls <;> rw [hr] at h
        · simp at h
        · simp only [] at h
          by_cases hl : urls.length = 0
          · rw [if_pos hl] at h
            simp at h
          · rw [if_neg hl] at h
            rcases hd : env.dbCreateError with _ | msg <;> rw [hd] at h
            · simp only [AddCarResult.mk.injEq, Option.some.injEq] at h
              have himg : car.images = urls := by rw [← h]; rfl
              rw [himg]
              intro hnil
              exact hl (by rw [hnil]; rfl)
            · simp at h

/-- Claim C1 witness: a concrete call with only invalid entries. -/
theorem addCar_zero_valid_images_witness :
    addCar sampleEnv sampleCarData ["not-an-image", ""] =
      ⟨.error ("Error adding car:" ++ "No valid images were uploaded"), [], none⟩ :=
  addCar_zero_valid_images_invariant.1 sampleEnv sampleCarData
    ["not-an-image", ""] "user-1" rfl rfl (by decide)

/-- Claim C2 counterexample: the claim as stated is false.  The sequence
below contains one well-formed data URI and one malformed string (in the
sense of the spec format `data:image/<ext>;base64,<payload>`), every upload
succeeds, yet `addCar` throws instead of skipping the malformed entry: the
entry passes the `data:image/` prefix check, so the code goes on to
`images[i].split(",")[1]`, which is `undefined` without a comma, and
`Buffer.from(undefined, "base64")` throws (message modelled by the
environment, here `"TE"`). -/
theorem addCar_malformed_marked_entry_throws :
    specWellFormedDataURI "data:image/png;base64,AAAA" = true ∧
    specWellFormedDataURI "data:image/bad" = false ∧
    (addCar sampleEnv sampleCarData
        ["data:image/png;base64,AAAA", "data:image/bad"]).outcome =
      .error ("Error adding car:" ++ "TE") := by
  refine ⟨by decide, by decide, ?_⟩
  rfl

/-- Claim C2 (amended): for every authenticated `addCar` call in which at
least one entry passes the `data:image/` prefix check and every entry
passing the check contains a comma, with all storage uploads and the insert
succeeding, the call succeeds, skips exactly the entries failing the prefix
check, uploads one object per accepted entry and stores exactly one public
URL per accepted entry, in input order. -/
theorem addCar_accepts_marker_checked_entries (env : AddCarEnv) (carData : CarData)
    (images : List String) (uid : String)
    (hauth : env.userId = some uid) (huser : env.userExists = true)
    (hup : ∀ p, env.uploadError p = none) (hdb : env.dbCreateError = none)
    (hany : images.any validImage = true)
    (hcomma : ∀ img ∈ images, validImage img = true → 2 ≤ (splitComma img.data).length) :
    addCar env carData images =
      ⟨.ok (), acceptedPaths env images,
       some (mkCar env carData (acceptedUrls env images))⟩ ∧
    (acceptedUrls env images).length = (images.filter validImage).length := by
  have hlen : (acceptedUrls env images).length = (images.filter validImage).length := by
    simp only [acceptedUrls, List.length_map]
    exact acceptedEntries_length images
  refine ⟨?_, hlen⟩
  have hing := ingest_all_uploads_ok env hup images hcomma 0
  have hpos : 0 < (images.filter validImage).length := by
    obtain ⟨x, hx, hvx⟩ := List.any_eq_true.mp hany
    exact List.length_pos.mpr (List.ne_nil_of_mem (List.mem_filter.mpr ⟨hx, hvx⟩))
  have hne : ¬ (acceptedUrls env images).length = 0 := by omega
  simp only [addCar, hauth, huser, Bool.not_true, Bool.false_eq_true, if_false, hing]
  simp only [acceptedUrls, acceptedPaths, acceptedEntries] at hne ⊢
  rw [if_neg hne]
  simp [hdb]

/-- Claim C2 witness: the worked example of spec section 8 — a png entry, a
garbage entry, a jpeg entry; the call succeeds with exactly two URLs, skipping
the middle entry. -/
theorem addCar_accepts_marker_checked_entries_witness :
    addCar sampleEnv sampleCarData
        ["data:image/png;base64,AAAA", "not-an-image", "data:image/jpeg;base64,BBBB"] =
      ⟨.ok (),
       acceptedPaths sampleEnv
         ["data:image/png;base64,AAAA", "not-an-image", "data:image/jpeg;base64,BBBB"],
       some (mkCar sampleEnv sampleCarData
         (acceptedUrls sampleEnv
           ["data:image/png;base64,AAAA", "not-an-image", "data:image/jpeg;base64,BBBB"]))⟩ ∧
    (acceptedUrls sampleEnv
        ["data:image/png;base64,AAAA", "not-an-image", "data:image/jpeg;base64,BBBB"]).length =
      (["data:image/png;base64,AAAA", "not-an-image",
        "data:image/jpeg;base64,BBBB"].filter validImage).length :=
  addCar_accepts_marker_checked_entries sampleEnv sampleCarData _ "user-1"
    rfl rfl (fun _ => rfl) rfl (by decide) (by decide)

/-! ## Properties of the AI extractors -/

/-- Claim C3 counterexample: the claim as stated is false.  On a valid JSON
object missing every required key (here `{}`), `processCarImageWithAI`
returns a tagged failure whose message is the fixed string
`"Failed to parse AI response"`; the message does not name the missing key
`make` (the error naming the missing fields is thrown on line 104 and then
caught by the same function on line 112, which replaces it). -/
theorem processCarImageWithAI_failure_message_generic :
    processCarImageWithAI true (fun _ => some (.jobj [])) "x" =
      .ok ⟨false, none, some "Failed to parse AI response"⟩ ∧
    ("make" ∈ requiredFields ∧ (List.contains ([] : List String) "make") = false) ∧
    occursIn "make".data "Failed to parse AI response".data = false := by
  exact ⟨rfl, ⟨by decide, rfl⟩, by decide⟩

/-- Claim C3 (amended): for every AI response that parses as a JSON object
missing at least one required key, `processCarImageWithAI` returns (does not
throw) the tagged failure with the generic message
`"Failed to parse AI response"` (the missing keys are not named in the
returned message); and it never returns `success := true` together with a
value missing a required key. -/
theorem processCarImageWithAI_missing_keys_tagged_failure :
    (∀ (jsonParse : String → Option Json) (text : String) (keys : List String),
      jsonParse (jsClean text) = some (.jobj keys) →
      (requiredFields.filter (fun field => !(keys.contains field))).length > 0 →
      processCarImageWithAI true jsonParse text =
        .ok ⟨false, none, some "Failed to parse AI response"⟩) ∧
    (∀ (hasApiKey : Bool) (jsonParse : String → Option Json) (text : String) (r : AIReply),
      processCarImageWithAI hasApiKey jsonParse text = .ok r → r.success = true →
      ∃ keys, r.data = some (.jobj keys) ∧ ∀ field ∈ requiredFields,
        keys.contains field = true) := by
  constructor
  · intro jsonParse text keys hp hm
    simp only [processCarImageWithAI, Bool.not_true, Bool.false_eq_true, if_false, hp]
    rw [if_pos hm]
  · intro hasApiKey jsonParse text r h hs
    rcases hk : hasApiKey
    · rw [hk] at h
      simp [processCarImageWithAI] at h
    · rw [hk] at h
      simp only [processCarImageWithAI, Bool.not_true, Bool.false_eq_true, if_false] at h
      rcases hp : jsonParse (jsClean text) with _ | j <;> rw [hp] at h
      · simp only [Except.ok.injEq] at h
        rw [← h] at hs
        simp at hs
      · rcases j with keys | _
        · simp only [] at h
          by_cases hm : (requiredFields.filter (fun field => !(keys.contains field))).length > 0
          · rw [if_pos hm] at h
            simp only [Except.ok.injEq] at h
            rw [← h] at hs
            simp at hs
          · rw [if_neg hm] at h
            simp only [Except.ok.injEq] at h
            refine ⟨keys, by rw [← h], ?_⟩
            have hnil : requiredFields.filter (fun field => !(keys.contains field)) = [] := by
              have : (requiredFields.filter (fun field => !(keys.contains field))).length = 0 := by
                omega
              exact List.length_eq_zero.mp this
            intro field hf
            have := List.filter_eq_nil_iff.mp hnil field hf
            simpa using this
        · simp only [Except.ok.injEq] at h
          rw [← h] at hs
          simp at hs

/-- Claim C3 witness: a concrete call with an empty JSON object. -/
theorem processCarImageWithAI_missing_keys_witness :
    processCarImageWithAI true (fun _ => some (.jobj ["make"])) "y" =
      .ok ⟨false, none, some "Failed to parse AI response"⟩ :=
  processCarImageWithAI_missing_keys_tagged_failure.1
    (fun _ => some (.jobj ["make"])) "y" ["make"] rfl (by decide)

/-- Claim C4: for AI response text that is not valid JSON after
fence-stripping, `processCarImageWithAI` does return a tagged failure, but
`processImageSearch` throws.  Its catch block (line 486) evaluates
`parseError`, an identifier that does not exist in that scope (the catch
binds `error`), so a ReferenceError is raised, the
`return {success:false, error:"Failed to parse AI response"}` on line 487 is
dead code, and the outer catch throws `Error("AI search error:", ...)`
instead.  This contradicts the claim (and the evident intent of the dead
return statement and of the sibling function). -/
theorem processImageSearch_parse_failure_throws :
    processCarImageWithAI true (fun _ => none) "plain text, not JSON" =
      .ok ⟨false, none, some "Failed to parse AI response"⟩ ∧
    processImageSearch ⟨.allow, true, fun _ => none, "plain text, not JSON"⟩ =
      ⟨.error "AI search error:", true, []⟩ :=
  ⟨rfl, rfl⟩

/-- Claim C5 counterexample: the claim as stated is false.  The error with
which `processImageSearch` fails on a rate-limit denial does not carry the
remaining-quota and reset-time values of the denial: the outcome for
`remaining = 0, resetInSeconds = 30` is byte-for-byte the same as for
`remaining = 5, resetInSeconds = 99` (the fixed thrown message
`"AI search error:"`, which does not even contain the digits of 30), so the
caller cannot recover the values from the failure. -/
theorem processImageSearch_rate_limit_error_carries_no_details :
    (processImageSearch ⟨.denyRateLimit 0 30, true, fun _ => none, "t"⟩).outcome =
      (processImageSearch ⟨.denyRateLimit 5 99, true, fun _ => none, "t"⟩).outcome ∧
    (processImageSearch ⟨.denyRateLimit 0 30, true, fun _ => none, "t"⟩).outcome =
      .error "AI search error:" ∧
    (processImageSearch ⟨.denyRateLimit 0 30, true, fun _ => none, "t"⟩).aiInvoked = false ∧
    occursIn "30".data "AI search error:".data = false :=
  ⟨rfl, rfl, rfl, by decide⟩

/-- Claim C5 (amended): on a rate-limit denial, `processImageSearch` fails
with a thrown error (message `"AI search error:"`, the outer rewrap of
`"Too many requests. Please try again later."`), never invokes the AI
provider, and the remaining-quota and reset-time values of the denial are
emitted only to the error log, not carried on the thrown error. -/
theorem processImageSearch_rate_limit_behaviour (env : SearchEnv)
    (remaining reset : Nat) (h : env.decision = .denyRateLimit remaining reset) :
    processImageSearch env = ⟨.error "AI search error:", false, [(remaining, reset)]⟩ := by
  simp [processImageSearch, h]

/-- Claim C5 witness: the denial of the spec example
(`remaining = 0, resetInSeconds = 30`). -/
theorem processImageSearch_rate_limit_witness :
    processImageSearch ⟨.denyRateLimit 0 30, true, fun _ => none, "t"⟩ =
      ⟨.error "AI search error:", false, [(0, 30)]⟩ :=
  processImageSearch_rate_limit_behaviour _ 0 30 rfl

/-! ## Repository operations -/

/-- Claim C6: `updateCarStatus` performs a sparse update — with `status`
undefined only `featured` is written and the stored `status` is unchanged,
and symmetrically with `featured` undefined only `status` is written; the
record-update form of the conclusion leaves every other field of the stored
row untouched. -/
theorem updateCarStatus_sparse_update (env : UpdateEnv) (uid : String) (car : Car)
    (hauth : env.userId = some uid) (huser : env.userExists = true)
    (hstored : env.stored = some car) :
    (∀ b : Bool, updateCarStatus env ⟨none, some b⟩ =
        ⟨⟨true, none⟩, some { car with featured := b }⟩) ∧
    (∀ s : String, updateCarStatus env ⟨some s, none⟩ =
        ⟨⟨true, none⟩, some { car with status := s }⟩) := by
  constructor <;> intro x <;>
    simp [updateCarStatus, hauth, huser, hstored, applyUpdate]

/-- Claim C6 witness: a featured-only and a status-only update of a sample
row. -/
theorem updateCarStatus_sparse_update_witness :
    updateCarStatus ⟨some "user-1", true, some sampleCar⟩ ⟨none, some true⟩ =
      ⟨⟨true, none⟩, some { sampleCar with featured := true }⟩ ∧
    updateCarStatus ⟨some "user-1", true, some sampleCar⟩ ⟨some "SOLD", none⟩ =
      ⟨⟨true, none⟩, some { sampleCar with status := "SOLD" }⟩ :=
  ⟨(updateCarStatus_sparse_update ⟨some "user-1", true, some sampleCar⟩
      "user-1" sampleCar rfl rfl rfl).1 true,
   (updateCarStatus_sparse_update ⟨some "user-1", true, some sampleCar⟩
      "user-1" sampleCar rfl rfl rfl).2 "SOLD"⟩

/-- Claim C7: for every authenticated `deleteCar` call on an existing car,
the database row is deleted and the call returns `{success: true}`, for
every behaviour of the storage layer (in particular when the storage client
construction throws, when URL parsing throws, and when the batch remove
fails): the environment components `clientOk`, `urlPath` and `removeError`
are universally quantified and absent from the conclusion. -/
theorem deleteCar_existing_always_succeeds (env : DeleteEnv) (uid : String)
    (imgs : List String)
    (hauth : env.userId = some uid) (huser : env.userExists = true)
    (hfound : env.found = some imgs) :
    (deleteCar env).res = ⟨true, none⟩ ∧ (deleteCar env).dbDeleted = true := by
  constructor <;> simp [deleteCar, hauth, huser, hfound]

/-- Claim C7 witness: every storage remove fails (`removeError` set) on an
environment whose car exists; the call still reports success and the row is
deleted. -/
theorem deleteCar_existing_always_succeeds_witness :
    (deleteCar ⟨some "user-1", true,
        some ["http://s/storage/v1/object/public/car-images/cars/CID/a.png"],
        true, fun u => some u, some "storage down"⟩).res = ⟨true, none⟩ ∧
    (deleteCar ⟨some "user-1", true,
        some ["http://s/storage/v1/object/public/car-images/cars/CID/a.png"],
        true, fun u => some u, some "storage down"⟩).dbDeleted = true :=
  deleteCar_existing_always_succeeds _ "user-1" _ rfl rfl rfl

/-- Claim C8: for every authenticated `deleteCar` call on a nonexistent id,
the call returns the tagged `{success:false, error:"Car not found"}` result
(not a thrown error), deletes no database row and issues no storage call. -/
theorem deleteCar_not_found_no_effects (env : DeleteEnv) (uid : String)
    (hauth : env.userId = some uid) (huser : env.userExists = true)
    (hfound : env.found = none) :
    deleteCar env = ⟨⟨false, some "Car not found"⟩, false, []⟩ := by
  simp [deleteCar, hauth, huser, hfound]

/-- Claim C8 witness: a concrete environment with a healthy storage layer
and no row for the id. -/
theorem deleteCar_not_found_no_effects_witness :
    deleteCar ⟨some "user-1", true, none, true, fun u => some u, none⟩ =
      ⟨⟨false, some "Car not found"⟩, false, []⟩ :=
  deleteCar_not_found_no_effects _ "user-1" rfl rfl rfl

/-- Claim C9: the response-cleaning transformation (removing the code-fence
markers, then trimming) is idempotent: applied to an already-cleaned string
it returns it unchanged, so a fence-wrapped response and its unwrapped
equivalent yield the same parse input. -/
theorem jsClean_idempotent (s : String) : jsClean (jsClean s) = jsClean s := by
  unfold jsClean
  rw [show (String.mk (jsTrim (removeFences s.data))).data
        = jsTrim (removeFences s.data) from rfl]
  rw [removeFences_eq_self (hasTriple_jsTrim (hasTriple_removeFences _)), jsTrim_idem]

/-- `serializeCarData` is the identity on the Car model. -/
theorem serializeCarData_eq : serializeCarData = id := rfl

/-- Claim C10: `getFeaturedCars` returns at most `limit` cars (default 3),
every returned car is featured and AVAILABLE, the result is ordered by
creation time descending, and no identity check is performed before
querying: the result is the same for every ambient identity context,
including an unauthenticated one. -/
theorem getFeaturedCars_contract (authCtx : Option String) (dbCars : List Car)
    (limit : Nat) :
    (getFeaturedCars authCtx dbCars limit).length ≤ limit ∧
    (∀ c ∈ getFeaturedCars authCtx dbCars limit,
      c.featured = true ∧ c.status = "AVAILABLE") ∧
    List.Sorted createdDesc (getFeaturedCars authCtx dbCars limit) ∧
    (∀ other : Option String,
      getFeaturedCars authCtx dbCars limit = getFeaturedCars other dbCars limit) ∧
    getFeaturedCars authCtx dbCars = getFeaturedCars authCtx dbCars 3 := by
  have hmap : getFeaturedCars authCtx dbCars limit =
      ((dbCars.filter featuredAvailable).insertionSort createdDesc).take limit := by
    rw [getFeaturedCars, serializeCarData_eq, List.map_id]
  refine ⟨?_, ?_, ?_, fun _ => rfl, rfl⟩
  · rw [hmap]
    simp [List.length_take]
  · intro c hc
    rw [hmap] at hc
    have h1 : c ∈ (dbCars.filter featuredAvailable).insertionSort createdDesc :=
      (List.take_sublist _ _).subset hc
    have h2 : c ∈ dbCars.filter featuredAvailable :=
      (List.perm_insertionSort createdDesc _).subset h1
    have h3 := (List.mem_filter.mp h2).2
    simp only [featuredAvailable, Bool.and_eq_true, beq_iff_eq] at h3
    exact h3
  · rw [hmap]
    exact List.Pairwise.sublist (List.take_sublist _ _)
      (List.sorted_insertionSort createdDesc _)

end Vehiql
